import Mathlib

/-!
Shallow embedding of `src/source/application/src/utils.c` (smoker_ctrl).

Modelling conventions:
* Byte buffers are modelled as total functions `Nat → Nat` (for the caller
  buffers of `utils_itoa` / `utils_reverse`, whose size is caller-chosen) or
  as `List Nat` (for the fixed 20-byte buffers of `utils_float_to_char`).
  A byte is a `Nat`; ASCII codes are written as numerals (48 = the digit 0,
  45 = the minus sign, 46 = the dot).
* `uint32_t` arithmetic is `Nat` arithmetic with explicit `% 2^32` where the
  C code can wrap (the `s_len - 1` of `utils_reverse`, the `(uint32_t)(-n)`
  of `utils_itoa`).
* The C `float` argument of `utils_float_to_char` is modelled as an exact
  rational; the float-to-integer casts truncate toward zero (`truncQ`).
  On every concrete input used below the binary32 evaluation of the source
  agrees with the exact-rational evaluation.
-/

/-- Truncation toward zero of a rational, as a C float-to-integer cast does
(the source only ever casts non-negative operands). -/
def truncQ (q : ℚ) : Int := if q < 0 then -⌊-q⌋ else ⌊q⌋

/-- The body of the swap loop of `utils_reverse`:
`c = s[i]; s[i] = s[j]; s[j] = c;`. -/
def bufSwap (s : Nat → Nat) (i j : Nat) : Nat → Nat :=
  fun k => if k = i then s j else if k = j then s i else s k

/-- The loop of `utils_reverse` (utils.c lines 91-97):
`for (i = 0; i < j; i++) { swap s[i] s[j]; j--; }`. -/
def revLoop (s : Nat → Nat) (i j : Nat) : Nat → Nat :=
  if i < j then revLoop (bufSwap s i j) (i + 1) (j - 1) else s
termination_by j - i
decreasing_by omega

/-- Model of `utils_reverse` (utils.c lines 83-98).  `j = s_len - 1` is computed in
`uint32_t`, so `s_len = 0` wraps to `2^32 - 1`. -/
def utils_reverse (s : Nat → Nat) (s_len : Nat) : Nat → Nat :=
  revLoop s 0 ((s_len + (2 ^ 32 - 1)) % 2 ^ 32)

/-- The do-while digit loop of `utils_itoa` (utils.c lines 117-124):
writes `nr % 10 + '0'` at index `i`, increments `i`, divides `nr` by 10,
and repeats while `nr > 0 && i < s_max`.  Returns the updated buffer,
the counter `i` and the remaining value `nr`. -/
def itoaLoop (nr : Nat) (s : Nat → Nat) (i s_max : Nat) :
    (Nat → Nat) × Nat × Nat :=
  let s' : Nat → Nat := fun k => if k = i then nr % 10 + 48 else s k
  if nr / 10 > 0 ∧ i + 1 < s_max then itoaLoop (nr / 10) s' (i + 1) s_max
  else (s', i + 1, nr / 10)
termination_by nr
decreasing_by exact Nat.div_lt_self (by omega) (by norm_num)

/-- Model of `utils_itoa` (utils.c lines 100-139).  `n` is the `int32_t` argument;
`(uint32_t)(-n)` is modelled as wraparound modulo `2^32`.  Returns the final
buffer together with the returned count `i`. -/
def utils_itoa (n : Int) (s : Nat → Nat) (s_max : Nat) : (Nat → Nat) × Nat :=
  let nr : Nat := if n < 0 then ((-n) % 2 ^ 32).toNat else (n % 2 ^ 32).toNat
  let r := itoaLoop nr s 0 s_max
  let s1 := r.1
  let i1 := r.2.1
  let nr1 := r.2.2
  if nr1 = 0 then
    let i2 := if n < 0 then i1 + 1 else i1
    let s2 : Nat → Nat :=
      if n < 0 then (fun k => if k = i1 then 45 else s1 k) else s1
    let s3 : Nat → Nat := fun k => if k = i2 then 0 else s2 k
    (utils_reverse s3 i2, i2)
  else
    (s1, i1)

/-- The `decimals` value of `utils_float_to_char` (utils.c lines 31-49): the two-digit
fractional magnitude, computed by multiply-by-100, cast to integer and
modulo 100. -/
def floatDecimals (val : ℚ) : Int :=
  if val < 0 then truncQ (val * -100) % 100 else truncQ (val * 100) % 100

/-- The `units` value of `utils_float_to_char` (utils.c lines 31-49): the truncated
integer magnitude. -/
def floatUnits (val : ℚ) : Int :=
  if val < 0 then truncQ (-1 * val) else truncQ val

/-- The `while (units > 0)` loop of `utils_float_to_char` (utils.c lines
56-60): each iteration prepends (`*--s = ...`) the digit `units % 10 + '0'`
to the text accumulated so far. -/
def emitUnits (units : Int) (acc : List Nat) : List Nat :=
  if units > 0 then emitUnits (units / 10) (((units % 10).toNat + 48) :: acc)
  else acc
termination_by units.toNat
decreasing_by omega

/-- The text run that `utils_float_to_char` emits back-to-front into the tail
of the scratch buffer `tmp` (utils.c lines 51-65): last decimal digit, first
decimal digit, the dot, the unit digits, and a leading minus when negative. -/
def floatText (val : ℚ) : List Nat :=
  let decimals := floatDecimals val
  let d0 := (decimals % 10).toNat + 48
  let d1 := (decimals / 10 % 10).toNat + 48
  let core := emitUnits (floatUnits val) [46, d1, d0]
  if val < 0 then 45 :: core else core

/-- The 20-byte scratch buffer `tmp` of `utils_float_to_char` after the
emission: it was zero-initialised and the text occupies its tail. -/
def floatTmp (val : ℚ) : List Nat :=
  List.replicate (20 - (floatText val).length) 0 ++ floatText val

/-- Model of `utils_float_to_char` (utils.c lines 14-81), as the final contents of the
20-byte output buffer `out`: `out` is zero-filled (lines 26-29), then the
copy loop (lines 71-78) appends every byte of `tmp` that is not the zero
byte. -/
def utils_float_to_char (val : ℚ) : List Nat :=
  let copied := (floatTmp val).filter (fun b => b ≠ 0)
  copied ++ List.replicate (20 - copied.length) 0

/-- Number of decimal digits that the `utils_itoa` loop emits for a fully
consumed value `nr` (one digit is emitted even for 0). -/
def dlen (nr : Nat) : Nat :=
  if nr < 10 then 1 else dlen (nr / 10) + 1
termination_by nr
decreasing_by exact Nat.div_lt_self (by omega) (by norm_num)

/-- Modelled from the spec: the standard decimal representation of an
integer as ASCII bytes, a leading minus sign for negative values followed by
the decimal digits most-significant first. -/
def decRep (n : Int) : List Nat :=
  (if n < 0 then [45] else []) ++
    (List.range (dlen n.natAbs)).map
      (fun t => n.natAbs / 10 ^ (dlen n.natAbs - 1 - t) % 10 + 48)

theorem revLoop_char (d : Nat) :
    ∀ (s : Nat → Nat) (i j k : Nat), j - i ≤ d →
      revLoop s i j k = if i ≤ k ∧ k ≤ j then s (i + j - k) else s k := by
  induction d with
  | zero =>
    intro s i j k h
    rw [revLoop.eq_def]
    have hij : ¬ i < j := by omega
    simp only [hij, if_false]
    by_cases hk : i ≤ k ∧ k ≤ j
    · have : k = i := by omega
      have : i + j - k = k := by omega
      simp [hk, this]
    · simp [hk]
  | succ d ih =>
    intro s i j k h
    rw [revLoop.eq_def]
    by_cases hij : i < j
    · simp only [hij, if_true]
      rw [ih _ _ _ _ (by omega)]
      by_cases hk : i + 1 ≤ k ∧ k ≤ j - 1
      · simp only [hk, if_true]
        have he : i + 1 + (j - 1) - k = i + j - k := by omega
        have h1 : ¬ (i + j - k = i) := by omega
        have h2 : ¬ (i + j - k = j) := by omega
        simp [bufSwap, he, h1, h2, hk.1, hk.2]
        rw [if_pos (by omega)]
      · simp only [hk, if_false, bufSwap]
        by_cases hki : k = i
        · subst hki
          rw [if_pos rfl, if_pos ⟨le_refl _, by omega⟩]
          congr 1
          omega
        · rw [if_neg hki]
          by_cases hkj : k = j
          · subst hkj
            rw [if_pos rfl, if_pos ⟨by omega, le_refl _⟩]
            congr 1
            omega
          · rw [if_neg hkj, if_neg (by omega)]
    · simp only [hij, if_false]
      by_cases hk : i ≤ k ∧ k ≤ j
      · have : k = i := by omega
        have h2 : i + j - k = k := by omega
        simp [hk, h2]
      · simp [hk]

theorem dlen_of_bounds (n k : Nat) (h1 : 10 ^ k ≤ n) (h2 : n < 10 ^ (k + 1)) :
    dlen n = k + 1 := by
  induction k generalizing n with
  | zero =>
    rw [dlen.eq_def]
    have hn : n < 10 := by simpa using h2
    simp [hn]
  | succ k ih =>
    rw [dlen.eq_def]
    have h10 : ¬ n < 10 := by
      have : 10 ^ 1 ≤ 10 ^ (k + 1) := Nat.pow_le_pow_right (by norm_num) (by omega)
      simp only [pow_one] at this
      omega
    simp only [h10, if_false]
    rw [ih (n / 10) ?_ ?_]
    · exact Nat.le_div_iff_mul_le (by norm_num) |>.2 (by rw [← pow_succ]; exact h1)
    · exact Nat.div_lt_iff_lt_mul (by norm_num) |>.2 (by rw [← pow_succ]; exact h2)

theorem dlen_pos (n : Nat) : 1 ≤ dlen n := by
  rw [dlen.eq_def]
  split <;> omega

theorem pow_dlen_gt (n : Nat) : n < 10 ^ dlen n := by
  induction n using Nat.strong_induction_on with
  | _ n ih =>
    rw [dlen.eq_def]
    split
    · simpa using (by omega : n < 10)
    · rename_i h
      have hd := ih (n / 10) (Nat.div_lt_self (by omega) (by norm_num))
      rw [pow_succ]
      omega

theorem pow_le_of_lt_dlen (n m : Nat) (h1 : 1 ≤ m) (h : m < dlen n) :
    10 ^ m ≤ n := by
  induction n using Nat.strong_induction_on generalizing m with
  | _ n ih =>
    by_cases h10 : n < 10
    · rw [dlen.eq_def] at h
      simp [h10] at h
      omega
    · have hd : dlen n = dlen (n / 10) + 1 := by rw [dlen.eq_def]; simp [h10]
      rcases Nat.eq_or_lt_of_le h1 with he | hm
      · rw [← he, pow_one]
        omega
      · have hdiv := ih (n / 10) (Nat.div_lt_self (by omega) (by norm_num))
          (m - 1) (by omega) (by omega)
        have h1 : 10 ^ m = 10 * 10 ^ (m - 1) := by
          rw [← pow_succ']
          congr 1
          omega
        have h2 : 10 * (n / 10) ≤ n := by omega
        calc 10 ^ m = 10 * 10 ^ (m - 1) := h1
          _ ≤ 10 * (n / 10) := by omega
          _ ≤ n := h2

theorem itoaLoop_full (nr : Nat) :
    ∀ (s : Nat → Nat) (i s_max : Nat), (dlen nr = 1 ∨ i + dlen nr ≤ s_max) →
      itoaLoop nr s i s_max =
        (fun k => if i ≤ k ∧ k < i + dlen nr then nr / 10 ^ (k - i) % 10 + 48 else s k,
         i + dlen nr, 0) := by
  induction nr using Nat.strong_induction_on with
  | _ nr ih =>
    intro s i s_max h
    rw [itoaLoop.eq_def]
    by_cases h10 : nr < 10
    · have hd : dlen nr = 1 := by rw [dlen.eq_def]; simp [h10]
      have hz : nr / 10 = 0 := Nat.div_eq_of_lt h10
      simp only [hz, gt_iff_lt, Nat.lt_irrefl, false_and, if_false]
      refine Prod.ext ?_ (Prod.ext ?_ ?_) <;> simp only [hd]
      funext k
      by_cases hk : i ≤ k ∧ k < i + 1
      · have : k = i := by omega
        subst this
        simp [hk, Nat.pow_zero]
      · have : ¬ k = i := by omega
        simp [hk, this]
    · have hd : dlen nr = dlen (nr / 10) + 1 := by rw [dlen.eq_def]; simp [h10]
      have hdpos := dlen_pos (nr / 10)
      have hsm : i + 1 < s_max := by omega
      have hnr : nr / 10 > 0 := Nat.div_pos (by omega) (by norm_num)
      simp only [gt_iff_lt, hnr, hsm, and_true, if_pos, true_and]
      rw [ih (nr / 10) (Nat.div_lt_self (by omega) (by norm_num)) _ (i + 1) s_max (by omega)]
      refine Prod.ext ?_ (Prod.ext ?_ ?_)
      · funext k
        simp only
        by_cases hk : i + 1 ≤ k ∧ k < i + 1 + dlen (nr / 10)
        · rw [if_pos hk, if_pos (by omega)]
          have hke : k - (i + 1) + 1 = k - i := by omega
          rw [Nat.div_div_eq_div_mul, ← pow_succ', hke]
        · rw [if_neg hk]
          by_cases hki : k = i
          · subst hki
            rw [if_pos rfl, if_pos (by omega)]
            simp [Nat.pow_zero]
          · rw [if_neg hki, if_neg (by omega)]
      · simp only
        omega
      · rfl

theorem itoaLoop_trunc (nr : Nat) :
    ∀ (s : Nat → Nat) (i s_max : Nat), i < s_max → s_max < i + dlen nr →
      itoaLoop nr s i s_max =
        (fun k => if i ≤ k ∧ k < s_max then nr / 10 ^ (k - i) % 10 + 48 else s k,
         s_max, nr / 10 ^ (s_max - i)) := by
  induction nr using Nat.strong_induction_on with
  | _ nr ih =>
    intro s i s_max h1 h2
    by_cases h10 : nr < 10
    · have hd : dlen nr = 1 := by rw [dlen.eq_def]; simp [h10]
      omega
    · have hd : dlen nr = dlen (nr / 10) + 1 := by rw [dlen.eq_def]; simp [h10]
      have hnr : nr / 10 > 0 := Nat.div_pos (by omega) (by norm_num)
      rw [itoaLoop.eq_def]
      by_cases hsm : i + 1 < s_max
      · simp only [gt_iff_lt, hnr, hsm, and_true, if_pos, true_and]
        rw [ih (nr / 10) (Nat.div_lt_self (by omega) (by norm_num)) _ (i + 1) s_max hsm (by omega)]
        refine Prod.ext ?_ (Prod.ext ?_ ?_)
        · funext k
          simp only
          by_cases hk : i + 1 ≤ k ∧ k < s_max
          · rw [if_pos hk, if_pos (by omega)]
            have hke : k - (i + 1) + 1 = k - i := by omega
            rw [Nat.div_div_eq_div_mul, ← pow_succ', hke]
          · rw [if_neg hk]
            by_cases hki : k = i
            · subst hki
              rw [if_pos rfl, if_pos (by omega)]
              simp [Nat.pow_zero]
            · rw [if_neg hki, if_neg (by omega)]
        · rfl
        · simp only
          have hke : s_max - (i + 1) + 1 = s_max - i := by omega
          rw [Nat.div_div_eq_div_mul, ← pow_succ', hke]
      · have hsm' : i + 1 = s_max := by omega
        have hcond : ¬ (nr / 10 > 0 ∧ i + 1 < s_max) := by
          intro hc
          exact hsm hc.2
        rw [if_neg hcond]
        refine Prod.ext ?_ (Prod.ext ?_ ?_)
        · funext k
          simp only
          by_cases hki : k = i
          · subst hki
            rw [if_pos rfl, if_pos (by omega)]
            simp [Nat.pow_zero]
          · rw [if_neg hki, if_neg (by omega)]
        · simp only
          omega
        · simp only
          have hke : s_max - i = 1 := by omega
          rw [hke, pow_one]

theorem dlen_le_of_lt (n k : Nat) (hk : 1 ≤ k) (h : n < 10 ^ k) : dlen n ≤ k := by
  induction k generalizing n with
  | zero => omega
  | succ k ih =>
    rw [dlen.eq_def]
    by_cases h10 : n < 10
    · rw [if_pos h10]
      omega
    · rw [if_neg h10]
      rcases Nat.eq_zero_or_pos k with hk0 | hk1
      · subst hk0
        norm_num at h
        omega
      · have := ih (n / 10) hk1
          (Nat.div_lt_iff_lt_mul (by norm_num) |>.2 (by rw [← pow_succ]; exact h))
        omega

theorem utils_reverse_char (s : Nat → Nat) (len : Nat) (h1 : 1 ≤ len)
    (h2 : len < 2 ^ 32) (k : Nat) :
    utils_reverse s len k = if k < len then s (len - 1 - k) else s k := by
  unfold utils_reverse
  rw [show (2 : Nat) ^ 32 = 4294967296 from by norm_num] at h2 ⊢
  have hj : (len + (4294967296 - 1)) % 4294967296 = len - 1 := by omega
  rw [hj, revLoop_char (len - 1) s 0 (len - 1) k (by omega)]
  by_cases hk : k < len
  · rw [if_pos ⟨Nat.zero_le _, by omega⟩, if_pos hk]
    have he : 0 + (len - 1) - k = len - 1 - k := by omega
    rw [he]
  · rw [if_neg (by omega), if_neg hk]

theorem decRep_length (n : Int) :
    (decRep n).length = (if n < 0 then 1 else 0) + dlen n.natAbs := by
  unfold decRep
  split <;> simp
  omega

theorem rangeMap_getD (d : Nat) (f : Nat → Nat) (k : Nat) (hk : k < d) :
    (((List.range d).map f).getD k 0) = f k := by
  rw [List.getD_eq_getElem _ _ (by simpa using hk)]
  simp

theorem decRep_getD_sign (n : Int) (hneg : n < 0) : (decRep n).getD 0 0 = 45 := by
  unfold decRep
  rw [if_pos hneg]
  rfl

theorem decRep_getD_neg (n : Int) (hneg : n < 0) (k : Nat)
    (hk : k < dlen n.natAbs) :
    (decRep n).getD (k + 1) 0 =
      n.natAbs / 10 ^ (dlen n.natAbs - 1 - k) % 10 + 48 := by
  unfold decRep
  rw [if_pos hneg]
  show (((List.range (dlen n.natAbs)).map _).getD k 0) = _
  rw [rangeMap_getD _ _ k hk]

theorem decRep_getD_nonneg (n : Int) (hpos : ¬ n < 0) (k : Nat)
    (hk : k < dlen n.natAbs) :
    (decRep n).getD k 0 =
      n.natAbs / 10 ^ (dlen n.natAbs - 1 - k) % 10 + 48 := by
  unfold decRep
  rw [if_neg hpos]
  show (((List.range (dlen n.natAbs)).map _).getD k 0) = _
  rw [rangeMap_getD _ _ k hk]

theorem digit_congr (a e f : Nat) (h : e = f) :
    a / 10 ^ e % 10 + 48 = a / 10 ^ f % 10 + 48 := by rw [h]

theorem decRep_getD_eq (n : Int) (k : Nat) (hk : k < (decRep n).length) :
    (decRep n).getD k 0 =
      if n < 0 then
        (if k = 0 then 45 else n.natAbs / 10 ^ (dlen n.natAbs - k) % 10 + 48)
      else n.natAbs / 10 ^ (dlen n.natAbs - 1 - k) % 10 + 48 := by
  rw [decRep_length] at hk
  by_cases hneg : n < 0
  · rw [if_pos hneg]
    by_cases hk0 : k = 0
    · subst hk0
      rw [if_pos rfl, decRep_getD_sign n hneg]
    · rw [if_neg hk0]
      have hk1 : k = (k - 1) + 1 := by omega
      rw [hk1, decRep_getD_neg n hneg (k - 1) (by rw [if_pos hneg] at hk; omega)]
      exact digit_congr _ _ _ (by omega)
  · rw [if_neg hneg]
    exact decRep_getD_nonneg n hneg k (by rw [if_neg hneg] at hk; omega)

theorem utils_itoa_success (n : Int) (s : Nat → Nat) (s_max : Nat)
    (hlo : -2 ^ 31 ≤ n) (hhi : n < 2 ^ 31)
    (hcap : dlen n.natAbs = 1 ∨ dlen n.natAbs ≤ s_max) :
    utils_itoa n s s_max =
      (fun k =>
        if k < (decRep n).length then (decRep n).getD k 0
        else if k = (decRep n).length then 0
        else s k,
       (decRep n).length) := by
  rw [show (2 : Int) ^ 31 = 2147483648 from by norm_num] at hlo hhi
  have habs : n.natAbs ≤ 2147483648 := by omega
  have hd10 : dlen n.natAbs ≤ 10 :=
    dlen_le_of_lt _ 10 (by norm_num)
      (by rw [show (10 : Nat) ^ 10 = 10000000000 from by norm_num]; omega)
  have hd1 := dlen_pos n.natAbs
  have hnr : (if n < 0 then ((-n) % 2 ^ 32).toNat else (n % 2 ^ 32).toNat)
      = n.natAbs := by
    rw [show (2 : Int) ^ 32 = 4294967296 from by norm_num]
    split <;> omega
  simp only [utils_itoa]
  rw [hnr, itoaLoop_full n.natAbs s 0 s_max (by omega)]
  simp only [Nat.zero_add, Nat.zero_le, true_and, Nat.sub_zero, if_true]
  by_cases hneg : n < 0
  · simp only [if_pos hneg]
    have hlen : (decRep n).length = dlen n.natAbs + 1 := by
      rw [decRep_length, if_pos hneg]
      omega
    refine Prod.ext ?_ ?_
    · funext k
      show utils_reverse _ (dlen n.natAbs + 1) k =
        (if k < (decRep n).length then (decRep n).getD k 0
         else if k = (decRep n).length then 0 else s k)
      rw [utils_reverse_char _ (dlen n.natAbs + 1) (by omega)
        (by rw [show (2 : Nat) ^ 32 = 4294967296 from by norm_num]; omega) k]
      by_cases hk : k < (decRep n).length
      · rw [decRep_getD_eq n k hk, if_pos hneg]
        rw [hlen] at hk
        rw [if_pos (by omega : k < dlen n.natAbs + 1),
          if_pos (by omega : k < (decRep n).length)]
        split_ifs <;>
          first
            | rfl
            | omega
            | (exfalso; omega)
            | exact digit_congr _ _ _ (by omega)
      · rw [hlen] at hk
        rw [if_neg hk,
          if_neg (show ¬ k < (decRep n).length by rw [hlen]; exact hk), hlen]
        split_ifs <;>
          first
            | rfl
            | omega
            | (exfalso; omega)
    · show dlen n.natAbs + 1 = (decRep n).length
      rw [hlen]
  · simp only [if_neg hneg]
    have hlen : (decRep n).length = dlen n.natAbs := by
      rw [decRep_length, if_neg hneg]
      omega
    refine Prod.ext ?_ ?_
    · funext k
      show utils_reverse _ (dlen n.natAbs) k =
        (if k < (decRep n).length then (decRep n).getD k 0
         else if k = (decRep n).length then 0 else s k)
      rw [utils_reverse_char _ (dlen n.natAbs) (by omega)
        (by rw [show (2 : Nat) ^ 32 = 4294967296 from by norm_num]; omega) k]
      by_cases hk : k < (decRep n).length
      · rw [decRep_getD_eq n k hk, if_neg hneg]
        rw [hlen] at hk
        rw [if_pos (by omega : k < dlen n.natAbs),
          if_pos (by omega : k < (decRep n).length)]
        split_ifs <;>
          first
            | rfl
            | omega
            | (exfalso; omega)
            | exact digit_congr _ _ _ (by omega)
      · rw [hlen] at hk
        rw [if_neg hk,
          if_neg (show ¬ k < (decRep n).length by rw [hlen]; exact hk), hlen]
        split_ifs <;>
          first
            | rfl
            | omega
            | (exfalso; omega)
    · show dlen n.natAbs = (decRep n).length
      rw [hlen]

theorem utils_itoa_truncated (n : Int) (s : Nat → Nat) (s_max : Nat)
    (hlo : -2 ^ 31 ≤ n) (hhi : n < 2 ^ 31)
    (hs : 1 ≤ s_max) (hd : s_max < dlen n.natAbs) :
    utils_itoa n s s_max =
      (fun k => if k < s_max then n.natAbs / 10 ^ k % 10 + 48 else s k,
       s_max) := by
  have hnr : (if n < 0 then ((-n) % 2 ^ 32).toNat else (n % 2 ^ 32).toNat)
      = n.natAbs := by
    rw [show (2 : Int) ^ 32 = 4294967296 from by norm_num]
    rw [show (2 : Int) ^ 31 = 2147483648 from by norm_num] at hlo hhi
    split <;> omega
  have hpow := pow_le_of_lt_dlen n.natAbs s_max hs hd
  have hnz : n.natAbs / 10 ^ (s_max - 0) ≠ 0 := by
    rw [Nat.sub_zero]
    have h0 : 0 < (10 : Nat) ^ s_max := Nat.pos_pow_of_pos _ (by norm_num)
    have := Nat.one_le_div_iff h0 |>.2 hpow
    omega
  simp only [utils_itoa]
  rw [hnr, itoaLoop_trunc n.natAbs s 0 s_max (by omega) (by omega)]
  simp only [Nat.zero_add, Nat.zero_le, true_and, Nat.sub_zero] at hnz ⊢
  rw [if_neg hnz]

theorem emitUnits_zero_of_nonpos (u : Int) (h : ¬ u > 0) (acc : List Nat) :
    emitUnits u acc = acc := by
  rw [emitUnits.eq_def, if_neg h]

theorem emitUnits_step (u : Int) (h : u > 0) (acc : List Nat) :
    emitUnits u acc = emitUnits (u / 10) (((u % 10).toNat + 48) :: acc) := by
  rw [emitUnits.eq_def, if_pos h]

theorem emitUnits_mem_aux (fuelN : Nat) :
    ∀ (u : Int), u.toNat ≤ fuelN → ∀ (acc : List Nat) (b : Nat),
      b ∈ emitUnits u acc → b ∈ acc ∨ 48 ≤ b := by
  induction fuelN with
  | zero =>
    intro u hu acc b hb
    rw [emitUnits_zero_of_nonpos u (by omega) acc] at hb
    exact Or.inl hb
  | succ fuelM ih =>
    intro u hu acc b hb
    by_cases hpos : u > 0
    · rw [emitUnits_step u hpos acc] at hb
      rcases ih (u / 10) (by omega) _ b hb with h | h
      · rcases List.mem_cons.1 h with h1 | h1
        · right
          omega
        · exact Or.inl h1
      · exact Or.inr h
    · rw [emitUnits_zero_of_nonpos u hpos acc] at hb
      exact Or.inl hb

theorem emitUnits_mem (u : Int) (acc : List Nat) (b : Nat)
    (hb : b ∈ emitUnits u acc) : b ∈ acc ∨ 48 ≤ b :=
  emitUnits_mem_aux u.toNat u le_rfl acc b hb

theorem emitUnits_length (k : Nat) :
    ∀ (u : Int), u < 10 ^ k → ∀ acc : List Nat,
      (emitUnits u acc).length ≤ k + acc.length := by
  induction k with
  | zero =>
    intro u hu acc
    have h1 : u < 1 := by simpa using hu
    rw [emitUnits_zero_of_nonpos u (by omega) acc]
    simp
  | succ k ih =>
    intro u hu acc
    by_cases hpos : u > 0
    · rw [emitUnits_step u hpos acc]
      have hdiv : u / 10 < 10 ^ k := by
        rw [pow_succ'] at hu
        omega
      have := ih (u / 10) hdiv (((u % 10).toNat + 48) :: acc)
      simp only [List.length_cons] at this
      omega
    · rw [emitUnits_zero_of_nonpos u hpos acc]
      omega

theorem floatText_mem_ne_zero (val : ℚ) (b : Nat) (hb : b ∈ floatText val) :
    b ≠ 0 := by
  simp only [floatText] at hb
  by_cases hneg : val < 0
  · rw [if_pos hneg] at hb
    rcases List.mem_cons.1 hb with h | h
    · omega
    · rcases emitUnits_mem _ _ _ h with h1 | h1
      · simp at h1
        rcases h1 with h2 | h2 | h2 <;> omega
      · omega
  · rw [if_neg hneg] at hb
    rcases emitUnits_mem _ _ _ hb with h1 | h1
    · simp at h1
      rcases h1 with h2 | h2 | h2 <;> omega
    · omega

theorem filter_replicate_zero (m : Nat) :
    (List.replicate m 0).filter (fun b => b ≠ 0) = [] := by
  induction m with
  | zero => rfl
  | succ m ih => simpa [List.replicate_succ, List.filter_cons] using ih

theorem float_copy_eq (val : ℚ) :
    (floatTmp val).filter (fun b => b ≠ 0) = floatText val := by
  unfold floatTmp
  rw [List.filter_append, filter_replicate_zero]
  rw [List.filter_eq_self.2]
  · rfl
  · intro b hb
    simpa using floatText_mem_ne_zero val b hb

theorem utils_float_to_char_eq (val : ℚ) :
    utils_float_to_char val =
      floatText val ++ List.replicate (20 - (floatText val).length) 0 := by
  unfold utils_float_to_char
  rw [float_copy_eq]

theorem truncQ_eval (q : ℚ) (z : Int) (hq : ¬ q < 0) (h1 : (z : ℚ) ≤ q)
    (h2 : q < z + 1) : truncQ q = z := by
  rw [truncQ, if_neg hq, Int.floor_eq_iff]
  exact ⟨h1, h2⟩

theorem floatDecimals_31_10 : floatDecimals (31 / 10 : ℚ) = 10 := by
  rw [floatDecimals, if_neg (by norm_num)]
  rw [truncQ_eval _ 310 (by norm_num) (by norm_num) (by norm_num)]
  decide

theorem floatUnits_31_10 : floatUnits (31 / 10 : ℚ) = 3 := by
  rw [floatUnits, if_neg (by norm_num)]
  exact truncQ_eval _ 3 (by norm_num) (by norm_num) (by norm_num)

theorem floatText_31_10 : floatText (31 / 10 : ℚ) = [51, 46, 49, 48] := by
  simp only [floatText, floatDecimals_31_10, floatUnits_31_10]
  rw [if_neg (by norm_num : ¬ (31 / 10 : ℚ) < 0)]
  rw [emitUnits_step 3 (by norm_num), show (3 : Int) / 10 = 0 from by norm_num,
    emitUnits_zero_of_nonpos 0 (by norm_num)]
  decide

theorem floatDecimals_3 : floatDecimals (3 : ℚ) = 0 := by
  rw [floatDecimals, if_neg (by norm_num)]
  rw [truncQ_eval _ 300 (by norm_num) (by norm_num) (by norm_num)]
  decide

theorem floatUnits_3 : floatUnits (3 : ℚ) = 3 := by
  rw [floatUnits, if_neg (by norm_num)]
  exact truncQ_eval _ 3 (by norm_num) (by norm_num) (by norm_num)

theorem floatText_3 : floatText (3 : ℚ) = [51, 46, 48, 48] := by
  simp only [floatText, floatDecimals_3, floatUnits_3]
  rw [if_neg (by norm_num : ¬ (3 : ℚ) < 0)]
  rw [emitUnits_step 3 (by norm_num), show (3 : Int) / 10 = 0 from by norm_num,
    emitUnits_zero_of_nonpos 0 (by norm_num)]
  decide

theorem floatDecimals_neg_5_2 : floatDecimals (-5 / 2 : ℚ) = 50 := by
  rw [floatDecimals, if_pos (by norm_num)]
  rw [truncQ_eval _ 250 (by norm_num) (by norm_num) (by norm_num)]
  decide

theorem floatUnits_neg_5_2 : floatUnits (-5 / 2 : ℚ) = 2 := by
  rw [floatUnits, if_pos (by norm_num)]
  exact truncQ_eval _ 2 (by norm_num) (by norm_num) (by norm_num)

theorem floatText_neg_5_2 : floatText (-5 / 2 : ℚ) = [45, 50, 46, 53, 48] := by
  simp only [floatText, floatDecimals_neg_5_2, floatUnits_neg_5_2]
  rw [if_pos (by norm_num : (-5 / 2 : ℚ) < 0)]
  rw [emitUnits_step 2 (by norm_num), show (2 : Int) / 10 = 0 from by norm_num,
    emitUnits_zero_of_nonpos 0 (by norm_num)]
  decide

theorem floatDecimals_0 : floatDecimals (0 : ℚ) = 0 := by
  rw [floatDecimals, if_neg (by norm_num)]
  rw [truncQ_eval _ 0 (by norm_num) (by norm_num) (by norm_num)]
  decide

theorem floatUnits_0 : floatUnits (0 : ℚ) = 0 := by
  rw [floatUnits, if_neg (by norm_num)]
  exact truncQ_eval _ 0 (by norm_num) (by norm_num) (by norm_num)

theorem floatText_0 : floatText (0 : ℚ) = [46, 48, 48] := by
  simp only [floatText, floatDecimals_0, floatUnits_0]
  rw [if_neg (by norm_num : ¬ (0 : ℚ) < 0),
    emitUnits_zero_of_nonpos 0 (by norm_num)]
  decide

theorem floatDecimals_1999_1000 : floatDecimals (1999 / 1000 : ℚ) = 99 := by
  rw [floatDecimals, if_neg (by norm_num)]
  rw [truncQ_eval _ 199 (by norm_num) (by norm_num) (by norm_num)]
  decide

theorem floatUnits_1999_1000 : floatUnits (1999 / 1000 : ℚ) = 1 := by
  rw [floatUnits, if_neg (by norm_num)]
  exact truncQ_eval _ 1 (by norm_num) (by norm_num) (by norm_num)

theorem floatText_1999_1000 : floatText (1999 / 1000 : ℚ) = [49, 46, 57, 57] := by
  simp only [floatText, floatDecimals_1999_1000, floatUnits_1999_1000]
  rw [if_neg (by norm_num : ¬ (1999 / 1000 : ℚ) < 0)]
  rw [emitUnits_step 1 (by norm_num), show (1 : Int) / 10 = 0 from by norm_num,
    emitUnits_zero_of_nonpos 0 (by norm_num)]
  decide

theorem floatUnits_nonneg (val : ℚ) : 0 ≤ floatUnits val := by
  rw [floatUnits]
  split
  · rw [truncQ, if_neg (by rename_i h; simp; linarith)]
    exact Int.floor_nonneg.2 (by rename_i h; linarith)
  · rw [truncQ, if_neg (by rename_i h; simpa using h)]
    exact Int.floor_nonneg.2 (by rename_i h; simpa using h)

theorem floatUnits_lt (val : ℚ) (h1 : -32768 < val * 100)
    (h2 : val * 100 < 32768) : floatUnits val < 1000 := by
  rw [floatUnits]
  split
  · rw [truncQ, if_neg (by rename_i h; simp; linarith)]
    rw [Int.floor_lt]
    push_cast
    linarith
  · rw [truncQ, if_neg (by rename_i h; simpa using h)]
    rw [Int.floor_lt]
    push_cast
    linarith

theorem floatText_length_le (val : ℚ) (h1 : -32768 < val * 100)
    (h2 : val * 100 < 32768) : (floatText val).length ≤ 7 := by
  have hu : floatUnits val < 10 ^ 3 := by
    rw [show ((10 : Int) ^ 3) = 1000 from by norm_num]
    exact floatUnits_lt val h1 h2
  have hlen := emitUnits_length 3 (floatUnits val) hu
    [46, (floatDecimals val / 10 % 10).toNat + 48, (floatDecimals val % 10).toNat + 48]
  simp only [List.length_cons, List.length_nil] at hlen
  simp only [floatText]
  split
  · simp only [List.length_cons]
    omega
  · omega

theorem utils_float_to_char_length (val : ℚ) (h1 : -32768 < val * 100)
    (h2 : val * 100 < 32768) : (utils_float_to_char val).length = 20 := by
  have hle := floatText_length_le val h1 h2
  rw [utils_float_to_char_eq]
  simp only [List.length_append, List.length_replicate]
  omega

theorem replicate_zero_getD (m i : Nat) :
    (List.replicate m (0 : Nat)).getD i 0 = 0 := by
  induction m generalizing i with
  | zero => simp
  | succ m ih =>
    cases i with
    | zero => simp [List.replicate_succ]
    | succ i => simp [List.replicate_succ, ih]

theorem utils_itoa_success_parts (n : Int) (s : Nat → Nat) (s_max : Nat)
    (hlo : -2 ^ 31 ≤ n) (hhi : n < 2 ^ 31)
    (hcap : dlen n.natAbs = 1 ∨ dlen n.natAbs ≤ s_max) :
    (utils_itoa n s s_max).2 = (decRep n).length ∧
    (∀ k, k < (decRep n).length →
      (utils_itoa n s s_max).1 k = (decRep n).getD k 0) ∧
    (utils_itoa n s s_max).1 (decRep n).length = 0 ∧
    (∀ k, (decRep n).length < k → (utils_itoa n s s_max).1 k = s k) := by
  rw [utils_itoa_success n s s_max hlo hhi hcap]
  refine ⟨rfl, ?_, ?_, ?_⟩
  · intro k hk
    simp only
    rw [if_pos hk]
  · simp
  · intro k hk
    simp only
    rw [if_neg (by omega), if_neg (by omega)]

theorem decRep_neg128 : decRep (-128) = [45, 49, 50, 56] := by
  have h1 : ((-128 : Int)).natAbs = 128 := by decide
  have h2 : dlen 128 = 3 := dlen_of_bounds 128 2 (by norm_num) (by norm_num)
  unfold decRep
  rw [h1, h2]
  decide

theorem decRep_zero : decRep 0 = [48] := by
  have h2 : dlen (0 : Int).natAbs = 1 := by rw [dlen.eq_def]; norm_num
  unfold decRep
  rw [h2]
  decide

theorem decRep_123 : decRep 123 = [49, 50, 51] := by
  have h1 : ((123 : Int)).natAbs = 123 := by decide
  have h2 : dlen 123 = 3 := dlen_of_bounds 123 2 (by norm_num) (by norm_num)
  unfold decRep
  rw [h1, h2]
  decide

theorem decRep_int_min :
    decRep (-2147483648) = [45, 50, 49, 52, 55, 52, 56, 51, 54, 52, 56] := by
  have h1 : ((-2147483648 : Int)).natAbs = 2147483648 := by decide
  have h2 : dlen 2147483648 = 10 := dlen_of_bounds _ 9 (by norm_num) (by norm_num)
  unfold decRep
  rw [h1, h2]
  decide

theorem dlen_12345 : dlen 12345 = 5 := dlen_of_bounds _ 4 (by norm_num) (by norm_num)

/-- C1: for every 32-bit signed integer and every capacity large enough to
hold all of its decimal digits, `utils_itoa` writes the standard decimal
representation (`decRep`) into the buffer as a null-terminated ASCII string,
with a leading minus byte (45) exactly when the input is negative, and
returns the number of characters written excluding the terminator. -/
theorem C1_itoa_standard_decimal (n : Int) (s : Nat → Nat) (s_max : Nat)
    (hlo : -2 ^ 31 ≤ n) (hhi : n < 2 ^ 31) (hcap : dlen n.natAbs ≤ s_max) :
    (utils_itoa n s s_max).2 = (decRep n).length ∧
    (∀ k, k < (decRep n).length →
      (utils_itoa n s s_max).1 k = (decRep n).getD k 0) ∧
    (utils_itoa n s s_max).1 (decRep n).length = 0 ∧
    ((decRep n).getD 0 0 = 45 ↔ n < 0) := by
  obtain ⟨h1, h2, h3, _⟩ :=
    utils_itoa_success_parts n s s_max hlo hhi (Or.inr hcap)
  refine ⟨h1, h2, h3, ?_⟩
  have hd1 := dlen_pos n.natAbs
  by_cases hneg : n < 0
  · rw [decRep_getD_sign n hneg]
    exact iff_of_true rfl hneg
  · rw [decRep_getD_eq n 0 (by rw [decRep_length, if_neg hneg]; omega),
      if_neg hneg]
    constructor
    · intro h45
      omega
    · intro h
      exact absurd h hneg

/-- Witness for C1 at the claim's own examples: `utils_itoa (-128) s 10`
leaves the bytes of "-128" plus a terminator and returns 4, and
`utils_itoa 0 s 10` leaves "0" and returns 1. -/
theorem C1_itoa_standard_decimal_witness :
    (utils_itoa (-128) (fun _ => 0) 10).2 = 4 ∧
    (utils_itoa (-128) (fun _ => 0) 10).1 0 = 45 ∧
    (utils_itoa (-128) (fun _ => 0) 10).1 1 = 49 ∧
    (utils_itoa (-128) (fun _ => 0) 10).1 2 = 50 ∧
    (utils_itoa (-128) (fun _ => 0) 10).1 3 = 56 ∧
    (utils_itoa (-128) (fun _ => 0) 10).1 4 = 0 ∧
    (utils_itoa 0 (fun _ => 0) 10).2 = 1 ∧
    (utils_itoa 0 (fun _ => 0) 10).1 0 = 48 ∧
    (utils_itoa 0 (fun _ => 0) 10).1 1 = 0 := by
  have hcap1 : dlen ((-128 : Int)).natAbs ≤ 10 := by
    rw [show ((-128 : Int)).natAbs = 128 from by decide,
      dlen_of_bounds 128 2 (by norm_num) (by norm_num)]
    omega
  have h := C1_itoa_standard_decimal (-128) (fun _ => 0) 10
    (by norm_num) (by norm_num) hcap1
  have hcap0 : dlen ((0 : Int)).natAbs ≤ 10 := by
    rw [show ((0 : Int)).natAbs = 0 from rfl, dlen.eq_def]
    norm_num
  have h0 := C1_itoa_standard_decimal 0 (fun _ => 0) 10
    (by norm_num) (by norm_num) hcap0
  rw [decRep_neg128] at h
  rw [decRep_zero] at h0
  exact ⟨h.1,
    (h.2.1 0 (by decide)).trans (by decide),
    (h.2.1 1 (by decide)).trans (by decide),
    (h.2.1 2 (by decide)).trans (by decide),
    (h.2.1 3 (by decide)).trans (by decide),
    h.2.2.1,
    h0.1,
    (h0.2.1 0 (by decide)).trans (by decide),
    h0.2.2.1⟩

/-- C3: when the digit loop of `utils_itoa` stops because the emitted digit
count reached `s_max` while the remaining value is still nonzero, the buffer
holds only the extracted low-order digits in back-to-front order (digit `k`
of the magnitude at index `k`), every index from `s_max` on is untouched (so
no minus sign, no null terminator and no reversal), and the function returns
exactly `s_max`. -/
theorem C3_itoa_silent_truncation (n : Int) (s : Nat → Nat) (s_max : Nat)
    (hlo : -2 ^ 31 ≤ n) (hhi : n < 2 ^ 31)
    (hs : 1 ≤ s_max) (hd : s_max < dlen n.natAbs) :
    (utils_itoa n s s_max).2 = s_max ∧
    (∀ k, k < s_max →
      (utils_itoa n s s_max).1 k = n.natAbs / 10 ^ k % 10 + 48) ∧
    (∀ k, s_max ≤ k → (utils_itoa n s s_max).1 k = s k) := by
  rw [utils_itoa_truncated n s s_max hlo hhi hs hd]
  refine ⟨rfl, ?_, ?_⟩
  · intro k hk
    simp only
    rw [if_pos hk]
  · intro k hk
    simp only
    rw [if_neg (by omega)]

/-- Witness for C3 at the claim's example: `utils_itoa 12345 s 3` returns 3
and leaves the bytes of "543" with index 3 untouched. -/
theorem C3_itoa_silent_truncation_witness :
    (utils_itoa 12345 (fun _ => 7) 3).2 = 3 ∧
    (utils_itoa 12345 (fun _ => 7) 3).1 0 = 53 ∧
    (utils_itoa 12345 (fun _ => 7) 3).1 1 = 52 ∧
    (utils_itoa 12345 (fun _ => 7) 3).1 2 = 51 ∧
    (utils_itoa 12345 (fun _ => 7) 3).1 3 = 7 := by
  have h := C3_itoa_silent_truncation 12345 (fun _ => 7) 3
    (by norm_num) (by norm_num) (by norm_num)
    (by rw [show ((12345 : Int)).natAbs = 12345 from by decide, dlen_12345]
        omega)
  exact ⟨h.1,
    (h.2.1 0 (by norm_num)).trans (by decide),
    (h.2.1 1 (by norm_num)).trans (by decide),
    (h.2.1 2 (by norm_num)).trans (by decide),
    h.2.2 3 (le_refl _)⟩

/-- C7: `utils_itoa` handles the most negative 32-bit integer: with the
negation modelled as wraparound modulo `2^32`, `utils_itoa (-2147483648) s
s_max` with `10 ≤ s_max` produces the bytes of "-2147483648" followed by a
null terminator and returns 11. -/
theorem C7_itoa_int_min (s : Nat → Nat) (s_max : Nat) (hs : 10 ≤ s_max) :
    (utils_itoa (-2147483648) s s_max).2 = 11 ∧
    (∀ k, k < 11 → (utils_itoa (-2147483648) s s_max).1 k =
      [45, 50, 49, 52, 55, 52, 56, 51, 54, 52, 56].getD k 0) ∧
    (utils_itoa (-2147483648) s s_max).1 11 = 0 := by
  have hcap : dlen ((-2147483648 : Int)).natAbs ≤ s_max := by
    rw [show ((-2147483648 : Int)).natAbs = 2147483648 from by decide,
      dlen_of_bounds 2147483648 9 (by norm_num) (by norm_num)]
    omega
  obtain ⟨h1, h2, h3, _⟩ := utils_itoa_success_parts (-2147483648) s s_max
    (by norm_num) (by norm_num) (Or.inr hcap)
  rw [decRep_int_min] at h1 h2 h3
  exact ⟨h1, fun k hk => h2 k hk, h3⟩

/-- Witness for C7 at `s_max = 10`: the returned count is 11, the first two
bytes are the minus sign and the digit 2, and index 11 holds the
terminator. -/
theorem C7_itoa_int_min_witness :
    (utils_itoa (-2147483648) (fun _ => 0) 10).2 = 11 ∧
    (utils_itoa (-2147483648) (fun _ => 0) 10).1 0 = 45 ∧
    (utils_itoa (-2147483648) (fun _ => 0) 10).1 1 = 50 ∧
    (utils_itoa (-2147483648) (fun _ => 0) 10).1 11 = 0 := by
  have h := C7_itoa_int_min (fun _ => 0) 10 (by norm_num)
  exact ⟨h.1,
    (h.2.1 0 (by norm_num)).trans (by decide),
    (h.2.1 1 (by norm_num)).trans (by decide),
    h.2.2⟩

/-- C10: on the success path (value fully consumed, terminator written,
digits reversed into standard order) `utils_itoa` still returns a count
equal to `s_max` whenever the non-negative input has exactly `s_max` decimal
digits, so a returned count equal to `s_max` does not by itself distinguish
truncation from success. -/
theorem C10_itoa_success_count_ambiguous (n : Int) (s : Nat → Nat)
    (s_max : Nat) (h0 : 0 ≤ n) (hhi : n < 2 ^ 31)
    (hd : dlen n.natAbs = s_max) :
    (utils_itoa n s s_max).2 = s_max ∧
    (utils_itoa n s s_max).1 s_max = 0 ∧
    (∀ k, k < s_max → (utils_itoa n s s_max).1 k = (decRep n).getD k 0) := by
  have hlen : (decRep n).length = s_max := by
    rw [decRep_length, if_neg (by omega : ¬ n < 0)]
    omega
  obtain ⟨h1, h2, h3, _⟩ := utils_itoa_success_parts n s s_max
    (le_trans (by norm_num) h0) hhi (Or.inr (by omega))
  rw [hlen] at h1 h2 h3
  exact ⟨h1, h3, h2⟩

/-- Witness for C10: `utils_itoa 123 s 3` takes the success path (terminator
at index 3, digits in standard order) and returns 3, equal to `s_max`. -/
theorem C10_itoa_success_count_ambiguous_witness :
    (utils_itoa 123 (fun _ => 9) 3).2 = 3 ∧
    (utils_itoa 123 (fun _ => 9) 3).1 3 = 0 ∧
    (utils_itoa 123 (fun _ => 9) 3).1 0 = 49 ∧
    (utils_itoa 123 (fun _ => 9) 3).1 1 = 50 ∧
    (utils_itoa 123 (fun _ => 9) 3).1 2 = 51 := by
  have h := C10_itoa_success_count_ambiguous 123 (fun _ => 9) 3
    (by norm_num) (by norm_num)
    (by rw [show ((123 : Int)).natAbs = 123 from by decide]
        exact dlen_of_bounds 123 2 (by norm_num) (by norm_num))
  exact ⟨h.1, h.2.1,
    (h.2.2 0 (by norm_num)).trans (by rw [decRep_123]; decide),
    (h.2.2 1 (by norm_num)).trans (by rw [decRep_123]; decide),
    (h.2.2 2 (by norm_num)).trans (by rw [decRep_123]; decide)⟩

/-- C5: for every buffer and every length between 1 and `2^32 - 1`,
applying `utils_reverse` twice restores the original contents of the first
`len` bytes. -/
theorem C5_reverse_involution (x : Nat → Nat) (len : Nat)
    (h1 : 1 ≤ len) (h2 : len < 2 ^ 32) :
    ∀ k, k < len → utils_reverse (utils_reverse x len) len k = x k := by
  intro k hk
  rw [utils_reverse_char _ len h1 h2 k, if_pos hk,
    utils_reverse_char x len h1 h2 (len - 1 - k), if_pos (by omega)]
  have he : len - 1 - (len - 1 - k) = k := by omega
  rw [he]

/-- Witness for C5: double reversal of a length-3 buffer restores its three
bytes. -/
theorem C5_reverse_involution_witness :
    utils_reverse (utils_reverse (fun i => i + 60) 3) 3 0 = 60 ∧
    utils_reverse (utils_reverse (fun i => i + 60) 3) 3 1 = 61 ∧
    utils_reverse (utils_reverse (fun i => i + 60) 3) 3 2 = 62 := by
  have h := C5_reverse_involution (fun i => i + 60) 3 (by norm_num)
    (by norm_num)
  exact ⟨h 0 (by norm_num), h 1 (by norm_num), h 2 (by norm_num)⟩

/-- C8: for `1 ≤ len < 2^32`, `utils_reverse` writes only indices
`0..len-1` (everything from `len` on is unchanged) and each written index
reads only index `len - 1 - k`, which lies below `len`; for `len = 0` the
`uint32_t` computation `len - 1` wraps to `2^32 - 1`, the swap loop is
entered, and the call reads the out-of-bounds index `2^32 - 1`. -/
theorem C8_reverse_access_bounds :
    (∀ (x : Nat → Nat) (len : Nat), 1 ≤ len → len < 2 ^ 32 →
      (∀ k, len ≤ k → utils_reverse x len k = x k) ∧
      (∀ k, k < len →
        utils_reverse x len k = x (len - 1 - k) ∧ len - 1 - k < len)) ∧
    ((0 + (2 ^ 32 - 1)) % 2 ^ 32 = 2 ^ 32 - 1) ∧
    (∀ y : Nat → Nat, utils_reverse y 0 0 = y (2 ^ 32 - 1)) := by
  refine ⟨?_, by norm_num, ?_⟩
  · intro x len h1 h2
    constructor
    · intro k hk
      rw [utils_reverse_char x len h1 h2 k, if_neg (by omega)]
    · intro k hk
      rw [utils_reverse_char x len h1 h2 k, if_pos hk]
      exact ⟨rfl, by omega⟩
  · intro y
    unfold utils_reverse
    rw [show (0 + (2 ^ 32 - 1)) % 2 ^ 32 = 2 ^ 32 - 1 from by norm_num]
    rw [revLoop_char (2 ^ 32 - 1) y 0 (2 ^ 32 - 1) 0 (by omega)]
    rw [if_pos ⟨le_refl 0, by omega⟩]
    norm_num

/-- Witness for C8: on a length-3 buffer index 5 is untouched and index 0 is
served from index 2; at length 0 the wrapped index `2^32 - 1` is read. -/
theorem C8_reverse_access_bounds_witness :
    utils_reverse (fun i => i + 60) 3 5 = 65 ∧
    utils_reverse (fun i => i + 60) 3 0 = 62 ∧
    utils_reverse (fun i => i) 0 0 = 4294967295 := by
  have h := C8_reverse_access_bounds
  have h3 := h.1 (fun i => i + 60) 3 (by norm_num) (by norm_num)
  refine ⟨h3.1 5 (by norm_num), (h3.2 0 (by norm_num)).1, ?_⟩
  have h0 := h.2.2 (fun i => i)
  simpa using h0

/-- C2 (code bug): the "Remove trailing zeros" copy of `utils_float_to_char`
tests byte values against 0, never against the ASCII digit '0' (48), so no
trailing zero decimal is ever trimmed: the inputs 3.10, 3.00, -2.5 and 0.0
leave "3.10", "3.00", "-2.50" and ".00" in the output buffer instead of the
claimed "3.1", "3", "-2.5" and "0". -/
theorem C2_float_no_trim_at_claimed_inputs :
    utils_float_to_char (31 / 10 : ℚ) =
      [51, 46, 49, 48] ++ List.replicate 16 0 ∧
    utils_float_to_char (3 : ℚ) = [51, 46, 48, 48] ++ List.replicate 16 0 ∧
    utils_float_to_char (-5 / 2 : ℚ) =
      [45, 50, 46, 53, 48] ++ List.replicate 15 0 ∧
    utils_float_to_char (0 : ℚ) = [46, 48, 48] ++ List.replicate 17 0 := by
  refine ⟨?_, ?_, ?_, ?_⟩
  · rw [utils_float_to_char_eq, floatText_31_10]
    decide
  · rw [utils_float_to_char_eq, floatText_3]
    decide
  · rw [utils_float_to_char_eq, floatText_neg_5_2]
    decide
  · rw [utils_float_to_char_eq, floatText_0]
    decide

/-- C4 counterexample: for the input 3.0 the scratch text "3.00" contains
the ASCII digit '0' (48) and that byte is present in the output buffer, so
the copy does not strip '0' digit characters. -/
theorem C4_zero_digit_not_stripped :
    48 ∈ floatText 3 ∧ 48 ∈ utils_float_to_char 3 := by
  constructor
  · rw [floatText_3]
    decide
  · rw [utils_float_to_char_eq, floatText_3]
    decide

/-- C4 (amended): the final copy of `utils_float_to_char` drops exactly the
zero-valued bytes, i.e. the null padding of the scratch buffer; the emitted
text, including any ASCII '0' (48) digit characters, is copied unchanged to
the front of the output buffer. -/
theorem C4_copy_drops_only_null_padding (val : ℚ) :
    utils_float_to_char val =
      floatText val ++ List.replicate (20 - (floatText val).length) 0 ∧
    ∀ b, b ∈ floatText val → b ∈ utils_float_to_char val := by
  refine ⟨utils_float_to_char_eq val, ?_⟩
  intro b hb
  rw [utils_float_to_char_eq]
  exact List.mem_append_left _ hb

/-- Witness for the amended C4: the '0' digit byte of the scratch text of
3.0 is in the output buffer. -/
theorem C4_copy_drops_only_null_padding_witness :
    48 ∈ utils_float_to_char 3 :=
  (C4_copy_drops_only_null_padding 3).2 48 (by rw [floatText_3]; decide)

/-- C6: the float formatter truncates (floor on a non-negative operand)
rather than rounds the two-decimal fraction, and 1.999 leaves "1.99" in the
output buffer. -/
theorem C6_float_truncates_fraction :
    (∀ val : ℚ, 0 ≤ val → floatDecimals val = ⌊val * 100⌋ % 100) ∧
    utils_float_to_char (1999 / 1000 : ℚ) =
      [49, 46, 57, 57] ++ List.replicate 16 0 := by
  constructor
  · intro val hv
    rw [floatDecimals, if_neg (not_lt.2 hv), truncQ,
      if_neg (not_lt.2 (by positivity))]
  · rw [utils_float_to_char_eq, floatText_1999_1000]
    decide

/-- Witness for C6 at 1.999: the two-decimal fraction is the truncation
`⌊199.9⌋ % 100 = 99`, not the rounding 00 (of 2.00). -/
theorem C6_float_truncates_fraction_witness :
    floatDecimals (1999 / 1000 : ℚ) = ⌊(1999 / 1000 : ℚ) * 100⌋ % 100 :=
  C6_float_truncates_fraction.1 (1999 / 1000) (by norm_num)

/-- C9: after `utils_float_to_char` the 20-byte output buffer is a run of
non-null bytes followed by null padding: there is a `j ≤ 20` with every byte
below `j` non-null and every byte from `j` to 19 null. -/
theorem C9_float_output_null_free_run (val : ℚ) (h1 : -32768 < val * 100)
    (h2 : val * 100 < 32768) :
    (utils_float_to_char val).length = 20 ∧
    ∃ j, j ≤ 20 ∧
      (∀ k, k < j → (utils_float_to_char val).getD k 0 ≠ 0) ∧
      (∀ k, j ≤ k → k < 20 → (utils_float_to_char val).getD k 0 = 0) := by
  have hlen := floatText_length_le val h1 h2
  refine ⟨utils_float_to_char_length val h1 h2,
    (floatText val).length, by omega, ?_, ?_⟩
  · intro k hk
    rw [utils_float_to_char_eq, List.getD_append _ _ _ _ hk,
      List.getD_eq_getElem _ _ hk]
    exact floatText_mem_ne_zero val _ (List.getElem_mem hk)
  · intro k hk1 hk2
    rw [utils_float_to_char_eq, List.getD_append_right _ _ _ _ hk1]
    exact replicate_zero_getD _ _

/-- Witness for C9 at 3.0: the output length is 20 and the non-null run is
followed by null padding. -/
theorem C9_float_output_null_free_run_witness :
    (utils_float_to_char 3).length = 20 ∧
    ∃ j, j ≤ 20 ∧
      (∀ k, k < j → (utils_float_to_char 3).getD k 0 ≠ 0) ∧
      (∀ k, j ≤ k → k < 20 → (utils_float_to_char 3).getD k 0 = 0) :=
  C9_float_output_null_free_run 3 (by norm_num) (by norm_num)
